import Mathlib

/-!
Verification development for the CSV-backed mini query engine
(client engine `executeCSVQuery` and CSV loaders `parseCSV` / `loadCSVData`).

The definitions below are a shallow embedding of the TypeScript source:
JavaScript strings become `String`/`List Char`, arrays become `List`, and
the specific regular expressions used by the engine are implemented as
explicit backtracking matchers with JavaScript's leftmost-match,
greedy/lazy quantifier semantics.  `NaN`-signalling `parseFloat` becomes
an `Option` of a decimal mantissa/exponent pair `(m, e)` denoting
`m * 10 ^ e`; the sort comparator returns an integer with the same sign
as the JavaScript float difference `aNum - bNum` (only the sign of a
comparator value is consumed by `Array.prototype.sort`).
`Array.prototype.sort` (required to be stable by the language
specification) is modelled by a stable insertion sort.  `Date.now()`-based
`executionTime` is informational wall-clock data and is omitted.
All string primitives (`toLowerCase`, `trim`, `split`, `includes`) are
given ASCII-faithful executable models so that every definition evaluates
inside the kernel.
`executeCSVQuery` returns, besides the result set, the table as it is
after the call: the source aliases `filteredRows = data.rows` and sorts
in place, so the table can change.
-/

namespace CSVQuery

/-- JavaScript whitespace, as used by `\s`, `String.prototype.trim` and
`parseFloat` (ASCII part; exotic Unicode spaces are not modelled since all
inputs of interest are ASCII). -/
def isJsSpace (c : Char) : Bool :=
  c == ' ' || c == '\t' || c == '\n' || c == '\r' || c == '\x0b' || c == '\x0c'

/-- `\w` character class of JavaScript regexes. -/
def isWordChar (c : Char) : Bool :=
  c.isAlphanum || c == '_'

/-- A quote character, as in the character class `['"]`. -/
def isQuoteChar (c : Char) : Bool :=
  c == '\'' || c == '"'

/-- ASCII lower-casing of one character (`String.prototype.toLowerCase`
acts exactly like this on ASCII input). -/
def jsCharLower (c : Char) : Char :=
  if 'A' ≤ c && c ≤ 'Z' then Char.ofNat (c.toNat + 32) else c

/-- `String.prototype.toLowerCase` (ASCII model). -/
def jsToLower (s : String) : String :=
  String.mk (s.toList.map jsCharLower)

/-- `String.prototype.trim` on a character list. -/
def jsTrimList (l : List Char) : List Char :=
  ((l.dropWhile isJsSpace).reverse.dropWhile isJsSpace).reverse

/-- `String.prototype.trim`. -/
def jsTrim (s : String) : String :=
  String.mk (jsTrimList s.toList)

/-- Substring containment on character lists (the core of
`String.prototype.includes`). -/
def inclList (need : List Char) : List Char → Bool
  | [] => need.isEmpty
  | c :: rest => need.isPrefixOf (c :: rest) || inclList need rest

/-- `hay.includes(need)` of JavaScript. -/
def strIncludes (hay need : String) : Bool :=
  inclList need.toList hay.toList

/-- `String.prototype.split` with a one-character separator (the source
only ever splits on `'\n'`, `'='` and `','`): accumulate the current
field, emit it at each separator, emit the final field at the end. -/
def splitOnCharGo (sep : Char) : List Char → List Char → List String
  | [], cur => [String.mk cur]
  | c :: rest, cur =>
    if c == sep then String.mk cur :: splitOnCharGo sep rest []
    else splitOnCharGo sep rest (cur ++ [c])

/-- `s.split(sep)` for a one-character separator. -/
def splitOnChar (sep : Char) (s : String) : List String :=
  splitOnCharGo sep s.toList []

/-- `value.replace(/['"]/g, '')`. -/
def stripQuotes (s : String) : String :=
  String.mk (s.toList.filter (fun c => !(isQuoteChar c)))

/-- `pattern.replace(/%/g, '')`. -/
def stripPercent (s : String) : String :=
  String.mk (s.toList.filter (fun c => !(c == '%')))

/-- Length of the leading whitespace run (what `\s+` can consume). -/
def wsRun (l : List Char) : Nat :=
  (l.takeWhile isJsSpace).length

/-- Length of the leading word-character run (what `\w+` consumes). -/
def wordRun (l : List Char) : Nat :=
  (l.takeWhile isWordChar).length

/-- Digit run folded to a natural number (`parseInt` on a digit string). -/
def natOfDigits (ds : List Char) : Nat :=
  ds.foldl (fun acc c => 10 * acc + (c.toNat - '0'.toNat)) 0

/-! ### The regex `/select\s+(.*?)\s+from/i`, applied to the lower-cased query -/

/-- Can `\s+from` match at this point?  (Existence over the backtracking
choices of the greedy `\s+`.) -/
def canTailFrom (l : List Char) : Bool :=
  (List.range (wsRun l)).any (fun i => "from".toList.isPrefixOf (l.drop (i + 1)))

/-- The lazy group `(.*?)` of the select regex: shortest prefix of
non-line-terminator characters after which `\s+from` matches. -/
def selLazyCapture : List Char → Option (List Char)
  | [] => none
  | c :: rest =>
    if canTailFrom (c :: rest) then some []
    else if c == '\n' || c == '\r' then none
    else (selLazyCapture rest).map (c :: ·)

/-- Greedy `\s+` directly after the literal `select`: try the longest
whitespace run first, backing off one character at a time. -/
def selGreedyWs (l : List Char) : Nat → Option (List Char)
  | 0 => none
  | k + 1 =>
    match selLazyCapture (l.drop (k + 1)) with
    | some cap => some cap
    | none => selGreedyWs l k

/-- Match attempt of `select\s+(.*?)\s+from` with `select` already consumed. -/
def selMatchAfter (l : List Char) : Option (List Char) :=
  selGreedyWs l (wsRun l)

/-- Leftmost-match scan for `select\s+(.*?)\s+from`. -/
def selScan : List Char → Option (List Char)
  | [] => none
  | c :: rest =>
    if "select".toList.isPrefixOf (c :: rest) then
      match selMatchAfter ((c :: rest).drop 6) with
      | some cap => some cap
      | none => selScan rest
    else selScan rest

/-- `normalizedQuery.match(/select\s+(.*?)\s+from/i)`, returning the first
capture group. -/
def selectExtract (s : String) : Option String :=
  (selScan s.toList).map String.mk

/-! ### The regex `/where\s+(.+?)(?:\s+order\s+by|\s+limit|$)/i` -/

/-- Can the terminator `(?:\s+order\s+by|\s+limit|$)` match at this point? -/
def whereTerm (l : List Char) : Bool :=
  ((List.range (wsRun l)).any (fun i =>
    "order".toList.isPrefixOf (l.drop (i + 1)) &&
      ((List.range (wsRun ((l.drop (i + 1)).drop 5))).any (fun k =>
        "by".toList.isPrefixOf (((l.drop (i + 1)).drop 5).drop (k + 1)))))) ||
  ((List.range (wsRun l)).any (fun i =>
    "limit".toList.isPrefixOf (l.drop (i + 1)))) ||
  l.isEmpty

/-- The lazy group `(.+?)` of the where regex: shortest nonempty prefix of
non-line-terminator characters followed by a terminator. -/
def whereLazyCapture : List Char → Option (List Char)
  | [] => none
  | c :: rest =>
    if c == '\n' || c == '\r' then none
    else if whereTerm rest then some [c]
    else (whereLazyCapture rest).map (c :: ·)

/-- Greedy `\s+` directly after the literal `where`. -/
def whereGreedyWs (l : List Char) : Nat → Option (List Char)
  | 0 => none
  | k + 1 =>
    match whereLazyCapture (l.drop (k + 1)) with
    | some cap => some cap
    | none => whereGreedyWs l k

/-- Leftmost-match scan for `where\s+(.+?)(?:\s+order\s+by|\s+limit|$)`. -/
def whereScan : List Char → Option (List Char)
  | [] => none
  | c :: rest =>
    if "where".toList.isPrefixOf (c :: rest) then
      match whereGreedyWs ((c :: rest).drop 5) (wsRun ((c :: rest).drop 5)) with
      | some cap => some cap
      | none => whereScan rest
    else whereScan rest

/-- `normalizedQuery.match(/where\s+(.+?)(?:\s+order\s+by|\s+limit|$)/i)`,
returning the first capture group (the WHERE clause text). -/
def whereExtract (s : String) : Option String :=
  (whereScan s.toList).map String.mk

/-! ### The regex `/(\w+)\s+like\s+['"](.+)['"]/i`, applied to the clause -/

/-- The greedy `(.+)['"]` tail: the longest nonempty prefix of
non-line-terminator characters that is immediately followed by a quote. -/
def likeGreedyPat : List Char → Option (List Char)
  | [] => none
  | c :: rest =>
    if c == '\n' || c == '\r' then none
    else
      match likeGreedyPat rest with
      | some p => some (c :: p)
      | none =>
        match rest with
        | q :: _ => if isQuoteChar q then some [c] else none
        | [] => none

/-- Match attempt of the like regex at one start position.  `\w+` and the
two `\s+` are followed by disjoint character classes, so their greedy
matches are forced to the maximal runs. -/
def likeMatchAt (l : List Char) : Option (List Char × List Char) :=
  let w := wordRun l
  if w = 0 then none
  else
    let col := l.take w
    let l1 := l.drop w
    let b1 := wsRun l1
    if b1 = 0 then none
    else
      let l2 := l1.drop b1
      if "like".toList.isPrefixOf l2 then
        let l3 := l2.drop 4
        let b2 := wsRun l3
        if b2 = 0 then none
        else
          match l3.drop b2 with
          | q :: l5 =>
            if isQuoteChar q then (likeGreedyPat l5).map (fun p => (col, p))
            else none
          | [] => none
      else none

/-- Leftmost-match scan for the like regex. -/
def likeScan : List Char → Option (List Char × List Char)
  | [] => none
  | c :: rest =>
    match likeMatchAt (c :: rest) with
    | some r => some r
    | none => likeScan rest

/-- `whereClause.match(/(\w+)\s+like\s+['"](.+)['"]/i)`, returning the
column and pattern captures. -/
def likeExtract (s : String) : Option (String × String) :=
  (likeScan s.toList).map (fun p => (String.mk p.1, String.mk p.2))

/-! ### The regex `/order\s+by\s+(\w+)(?:\s+(asc|desc))?/i` -/

/-- Match attempt with the literal `order` already consumed.  The
alternation `(asc|desc)` tries `asc` first, and the optional direction
group matches empty when it cannot match. -/
def orderMatchAt (l : List Char) : Option (List Char × Option (List Char)) :=
  let b1 := wsRun l
  if b1 = 0 then none
  else
    let l1 := l.drop b1
    if "by".toList.isPrefixOf l1 then
      let l2 := l1.drop 2
      let b2 := wsRun l2
      if b2 = 0 then none
      else
        let l3 := l2.drop b2
        let w := wordRun l3
        if w = 0 then none
        else
          let col := l3.take w
          let l4 := l3.drop w
          let b3 := wsRun l4
          let dir : Option (List Char) :=
            if b3 = 0 then none
            else if "asc".toList.isPrefixOf (l4.drop b3) then some "asc".toList
            else if "desc".toList.isPrefixOf (l4.drop b3) then some "desc".toList
            else none
          some (col, dir)
    else none

/-- Leftmost-match scan for the order-by regex. -/
def orderScan : List Char → Option (List Char × Option (List Char))
  | [] => none
  | c :: rest =>
    if "order".toList.isPrefixOf (c :: rest) then
      match orderMatchAt ((c :: rest).drop 5) with
      | some r => some r
      | none => orderScan rest
    else orderScan rest

/-- `normalizedQuery.match(/order\s+by\s+(\w+)(?:\s+(asc|desc))?/i)`,
returning the column and optional direction captures. -/
def orderExtract (s : String) : Option (String × Option String) :=
  (orderScan s.toList).map (fun p => (String.mk p.1, p.2.map String.mk))

/-! ### The regex `/limit\s+(\d+)/i` -/

/-- Match attempt with the literal `limit` already consumed; `parseInt` on
the digit capture. -/
def limitMatchAt (l : List Char) : Option Nat :=
  let b := wsRun l
  if b = 0 then none
  else
    let ds := (l.drop b).takeWhile Char.isDigit
    if ds.isEmpty then none else some (natOfDigits ds)

/-- Leftmost-match scan for the limit regex. -/
def limitScan : List Char → Option Nat
  | [] => none
  | c :: rest =>
    if "limit".toList.isPrefixOf (c :: rest) then
      match limitMatchAt ((c :: rest).drop 5) with
      | some n => some n
      | none => limitScan rest
    else limitScan rest

/-- `normalizedQuery.match(/limit\s+(\d+)/i)` followed by `parseInt`. -/
def limitExtract (s : String) : Option Nat :=
  limitScan s.toList

/-! ### `parseFloat` and the sort comparator -/

/-- Exponent part of a float literal: `e`/`E` already consumed; an optional
sign then digits; without digits the exponent part is not part of the
numeric prefix and contributes exponent `0`. -/
def expVal (r : List Char) : Int :=
  let sgn : Int := match r with
    | '-' :: _ => -1
    | _ => 1
  let r1 := match r with
    | '+' :: rr => rr
    | '-' :: rr => rr
    | _ => r
  let eds := r1.takeWhile Char.isDigit
  if eds.isEmpty then 0 else sgn * (natOfDigits eds : Nat)

/-- JavaScript `parseFloat`, at exact decimal precision: skip leading
whitespace, optional sign, digits, optional fraction, optional exponent;
`none` models `NaN` (no valid numeric prefix).  The result `(m, e)`
denotes the value `m * 10 ^ e` (see `jsNumVal`).  Double rounding and the
`Infinity` literal are not modelled. -/
def parseFloat? (s : String) : Option (Int × Int) :=
  let l := s.toList.dropWhile isJsSpace
  let sgn : Int := match l with
    | '-' :: _ => -1
    | _ => 1
  let l1 := match l with
    | '+' :: r => r
    | '-' :: r => r
    | _ => l
  let ds := l1.takeWhile Char.isDigit
  let l2 := l1.dropWhile Char.isDigit
  let fr := match l2 with
    | '.' :: r => r.takeWhile Char.isDigit
    | _ => []
  let l3 := match l2 with
    | '.' :: r => r.dropWhile Char.isDigit
    | _ => l2
  if ds.isEmpty && fr.isEmpty then none
  else
    let e : Int := match l3 with
      | 'e' :: r => expVal r
      | 'E' :: r => expVal r
      | _ => 0
    some (sgn * (natOfDigits (ds ++ fr) : Nat), e - fr.length)

/-- The rational value denoted by a parsed number. -/
def jsNumVal (p : Int × Int) : ℚ :=
  (p.1 : ℚ) * (10 : ℚ) ^ p.2

/-- Sign-faithful difference of two parsed numbers: an integer whose sign
equals the sign of `jsNumVal a - jsNumVal b` (both mantissas are brought
to the smaller exponent).  `Array.prototype.sort` consumes only the sign
of a comparator value, so this models the float difference returned by
the source's comparator. -/
def numDiff (a b : Int × Int) : Int :=
  let d := a.2 - b.2
  if 0 ≤ d then a.1 * 10 ^ d.toNat - b.1 else a.1 - b.1 * 10 ^ (-d).toNat

/-- Code-unit comparison of character lists, the model of
`String.prototype.localeCompare` (which the source uses for the
lexicographic fallback; locale-specific collation is not modelled). -/
def cmpCharList : List Char → List Char → Int
  | [], [] => 0
  | [], _ :: _ => -1
  | _ :: _, [] => 1
  | a :: as, b :: bs => if a < b then -1 else if b < a then 1 else cmpCharList as bs

/-- `aVal.localeCompare(bVal)` model. -/
def strCmp (a b : String) : Int :=
  cmpCharList a.toList b.toList

/-- The comparator passed to `filteredRows.sort` (up to positive scaling,
which preserves the sign consumed by the sort): numeric when both cells
parse as numbers, otherwise string comparison; `desc` negates. -/
def rowCmp (j : Nat) (desc : Bool) (a b : List String) : Int :=
  let aVal := a.getD j ""
  let bVal := b.getD j ""
  match parseFloat? aVal, parseFloat? bVal with
  | some x, some y => if desc then numDiff y x else numDiff x y
  | _, _ =>
    let r := strCmp aVal bVal
    if desc then -r else r

/-- `a` may be placed no later than `b` by the sort: comparator `≤ 0`. -/
def rowLe (j : Nat) (desc : Bool) (a b : List String) : Prop :=
  rowCmp j desc a b ≤ 0

instance (j : Nat) (d : Bool) : DecidableRel (rowLe j d) :=
  fun a b => inferInstanceAs (Decidable (rowCmp j d a b ≤ 0))

/-! ### Data model -/

/-- The parsed CSV table (`CSVData` of `csvUtils.ts`). -/
structure CSVData where
  headers : List String
  rows : List (List String)
deriving DecidableEq

/-- The engine output (`QueryResult`); `executionTime` (wall clock,
informational only) is not modelled. -/
structure QueryResult where
  columns : List String
  rows : List (List String)
  rowCount : Nat
deriving DecidableEq

/-! ### The server-side CSV loader (`parseCSV` of `execute-sql/index.ts`) -/

/-- Number of double-quote characters in a line. -/
def countQuotes (s : String) : Nat :=
  s.toList.countP (fun c => c == '"')

/-- Character scan of `parseCSVLine`: split on unquoted commas, toggle on
quotes, `""` inside quotes is an escaped quote; every emitted field is
trimmed. -/
def csvLineGo : List Char → List Char → Bool → List String
  | [], cur, _ => [jsTrim (String.mk cur)]
  | '"' :: '"' :: rest2, cur, true => csvLineGo rest2 (cur ++ ['"']) true
  | '"' :: rest, cur, true => csvLineGo rest cur false
  | '"' :: rest, cur, false => csvLineGo rest cur true
  | c :: rest, cur, inQ =>
    if c == ',' && !inQ then jsTrim (String.mk cur) :: csvLineGo rest [] inQ
    else csvLineGo rest (cur ++ [c]) inQ

/-- `parseCSVLine`. -/
def parseCSVLine (line : String) : List String :=
  csvLineGo line.toList [] false

/-- `parseCSVRow`: while the accumulated physical line has an odd number
of quotes and lines remain, append the next physical line (joined by a
newline).  Returns the logical line and the remaining lines. -/
def joinRow (cur : String) : List String → String × List String
  | [] => (cur, [])
  | l :: rest =>
    if countQuotes cur % 2 = 0 then (cur, l :: rest)
    else joinRow (cur ++ "\n" ++ l) rest

/-- Row normalization of both loaders: pad with empty strings to the
header width, then truncate to the header width. -/
def padTrunc (W : Nat) (row : List String) : List String :=
  (row ++ List.replicate (W - row.length) "").take W

/-- The row loop of `parseCSV`: skip whitespace-only lines, assemble
multi-line logical rows (`joinRow`), normalize each row to the header
width.  The first argument is fuel bounding the number of loop
iterations; the loop consumes at least one physical line per iteration,
so `lines.length` fuel (as supplied by `parseRows`) always suffices. -/
def parseRowsGo (W : Nat) : Nat → List String → List (List String)
  | 0, _ => []
  | _ + 1, [] => []
  | fuel + 1, l :: rest =>
    if jsTrim l = "" then parseRowsGo W fuel rest
    else
      if (parseCSVLine (joinRow l rest).1).length > 0 then
        padTrunc W (parseCSVLine (joinRow l rest).1) ::
          parseRowsGo W fuel (joinRow l rest).2
      else parseRowsGo W fuel (joinRow l rest).2

/-- The row loop of `parseCSV` starting from line 1. -/
def parseRows (W : Nat) (lines : List String) : List (List String) :=
  parseRowsGo W lines.length lines

/-- `parseCSV`: split the raw text on newlines, parse line 0 as the header
row, then run the row loop.  Note `''.split('\n')` is `['']`, so the
zero-lines guard of the source can never fire. -/
def parseCSV (csvText : String) : CSVData :=
  if (splitOnChar '\n' csvText).length = 0 then { headers := [], rows := [] }
  else
    { headers := parseCSVLine ((splitOnChar '\n' csvText).getD 0 "")
      rows := parseRows (parseCSVLine ((splitOnChar '\n' csvText).getD 0 "")).length
        ((splitOnChar '\n' csvText).drop 1) }

/-! ### The client-side loader (`loadCSVData` of `csvUtils.ts`) -/

/-- The completion callback of `loadCSVData`, as a function of the parsed
row data delivered by the external Papa Parse library: reject (`error`)
when no data was parsed, otherwise trim headers, drop rows with no
nonempty cell, and normalize every row to the header width, trimming each
cell. -/
def loadCSVData (data : List (List String)) : Except String CSVData :=
  if data.length = 0 then Except.error "No data found in CSV"
  else
    let headers := (data.getD 0 []).map jsTrim
    let rows := ((data.drop 1).filter
        (fun row => row.any (fun cell => cell ≠ "" && jsTrim cell ≠ ""))).map
      (fun row => (padTrunc headers.length row).map
        (fun cell => if cell ≠ "" then jsTrim cell else ""))
    Except.ok { headers := headers, rows := rows }

/-! ### The query engine (`executeCSVQuery` of `csvUtils.ts`) -/

/-- `query.toLowerCase().trim()`. -/
def normalizeQuery (q : String) : String :=
  jsTrim (jsToLower q)

/-- Column-token resolution: case-insensitive exact header match,
falling back to index 0 (`index >= 0 ? index : 0`). -/
def resolveColIdx (headers : List String) (col : String) : Nat :=
  match headers.findIdx? (fun h => jsToLower h == jsToLower col) with
  | some i => i
  | none => 0

/-- The SELECT-columns step: on a `select ... from` match whose capture is
not `*`, split on commas, trim, resolve each token; otherwise all headers
in table order.  Returns (column indices, selected column names); a
selected name is looked up as `data.headers[i]`, which can only be out of
range for an empty header list (JavaScript `undefined`, modelled as `""`). -/
def selectStage (nq : String) (headers : List String) : List Nat × List String :=
  match selectExtract nq with
  | some cap =>
    if jsTrim cap ≠ "*" then
      let cols := (splitOnChar ',' cap).map jsTrim
      let idx := cols.map (resolveColIdx headers)
      (idx, idx.map (fun i => headers.getD i ""))
    else (List.range headers.length, headers)
  | none => (List.range headers.length, headers)

/-- The WHERE predicate applied to one row (the body of the `filter`
callback): an `=` clause splits on every `=` and uses the first two
trimmed segments as column and value; otherwise a `like` clause uses the
like regex; an unresolved column or unrecognized clause lets the row
pass. -/
def rowPassesWhere (headers : List String) (clause : String) (row : List String) : Bool :=
  if strIncludes clause "=" then
    let parts := splitOnChar '=' clause
    let column := jsTrim (parts.getD 0 "")
    let value := jsTrim (parts.getD 1 "")
    match headers.findIdx? (fun h => jsToLower h == jsToLower column) with
    | some j => strIncludes (jsToLower (row.getD j "")) (jsToLower (stripQuotes value))
    | none => true
  else if strIncludes clause "like" then
    match likeExtract clause with
    | some (col, pat) =>
      match headers.findIdx? (fun h => jsToLower h == jsToLower col) with
      | some j => strIncludes (jsToLower (row.getD j "")) (jsToLower (stripPercent pat))
      | none => true
    | none => true
  else true

/-- The WHERE step.  The Boolean is the aliasing flag: `true` when
`filteredRows` is still the very `data.rows` array (no WHERE clause
matched), which is what makes the later in-place sort observable. -/
def whereStage (nq : String) (headers : List String) (rows : List (List String)) :
    List (List String) × Bool :=
  match whereExtract nq with
  | some clause => (rows.filter (rowPassesWhere headers clause), false)
  | none => (rows, true)

/-- The ORDER BY step; the Boolean records whether `sort` was invoked
(in-place on the array held in `filteredRows`). -/
def orderStage (nq : String) (headers : List String) (rows : List (List String)) :
    List (List String) × Bool :=
  match orderExtract nq with
  | some (col, dir) =>
    match headers.findIdx? (fun h => jsToLower h == jsToLower col) with
    | some j => (List.insertionSort (rowLe j (dir == some "desc")) rows, true)
    | none => (rows, false)
  | none => (rows, false)

/-- The LIMIT step: `slice(0, limit)`. -/
def limitStage (nq : String) (rows : List (List String)) : List (List String) :=
  match limitExtract nq with
  | some n => rows.take n
  | none => rows

/-- Projection of one row: `columnIndices.map(i => row[i] || '')`. -/
def projRow (idx : List Nat) (row : List String) : List String :=
  idx.map (fun i => row.getD i "")

/-- `executeCSVQuery`.  Besides the `QueryResult`, the second component is
the table as observable after the call: when no WHERE clause matched
(`filteredRows` aliases `data.rows`) and ORDER BY did sort, the in-place
`Array.prototype.sort` has reordered the table's own rows. -/
def executeCSVQuery (query : String) (data : CSVData) : QueryResult × CSVData :=
  let nq := normalizeQuery query
  if strIncludes nq "select" then
    let sel := selectStage nq data.headers
    let fil := whereStage nq data.headers data.rows
    let ord := orderStage nq data.headers fil.1
    let limited := limitStage nq ord.1
    let resultRows := limited.map (projRow sel.1)
    ({ columns := sel.2, rows := resultRows, rowCount := resultRows.length },
     { headers := data.headers, rows := if fil.2 && ord.2 then ord.1 else data.rows })
  else
    ({ columns := ["message"],
       rows := [["Query type not supported. Please use SELECT statements."]],
       rowCount := 1 },
     data)

/-! ## Helper lemmas -/

theorem inclList_nil (l : List Char) : inclList [] l = true := by
  induction l with
  | nil => rfl
  | cons c rest ih => simp [inclList, List.isPrefixOf]

theorem isPrefixOf_append {l₁ l₂ : List Char} (l₃ : List Char)
    (h : l₁.isPrefixOf l₂ = true) : l₁.isPrefixOf (l₂ ++ l₃) = true := by
  rw [List.isPrefixOf_iff_prefix] at h ⊢
  exact h.trans (List.prefix_append l₂ l₃)

theorem inclList_append_left {need t : List Char} (pre : List Char)
    (h : inclList need t = true) : inclList need (pre ++ t) = true := by
  induction pre with
  | nil => exact h
  | cons c pre' ih =>
    simp only [List.cons_append, inclList, Bool.or_eq_true]
    exact Or.inr ih

theorem inclList_append_right {need m : List Char} (post : List Char)
    (h : inclList need m = true) : inclList need (m ++ post) = true := by
  induction m with
  | nil =>
    have hne : need = [] := by simpa [inclList] using h
    subst hne
    exact inclList_nil post
  | cons c m' ih =>
    simp only [inclList, Bool.or_eq_true] at h
    simp only [List.cons_append, inclList, Bool.or_eq_true]
    rcases h with h | h
    · exact Or.inl (isPrefixOf_append post h)
    · exact Or.inr (ih h)

theorem jsTrimList_decomp (l : List Char) :
    ∃ pre post, l = pre ++ jsTrimList l ++ post := by
  refine ⟨l.takeWhile isJsSpace,
    ((l.dropWhile isJsSpace).reverse.takeWhile isJsSpace).reverse, ?_⟩
  have h2 := List.takeWhile_append_dropWhile isJsSpace (l.dropWhile isJsSpace).reverse
  have h4 := congrArg List.reverse h2
  rw [List.reverse_append, List.reverse_reverse] at h4
  have h3 : l.dropWhile isJsSpace = jsTrimList l ++
      ((l.dropWhile isJsSpace).reverse.takeWhile isJsSpace).reverse := h4.symm
  calc l = l.takeWhile isJsSpace ++ l.dropWhile isJsSpace :=
        (List.takeWhile_append_dropWhile isJsSpace l).symm
    _ = l.takeWhile isJsSpace ++ (jsTrimList l ++
        ((l.dropWhile isJsSpace).reverse.takeWhile isJsSpace).reverse) := by rw [← h3]
    _ = l.takeWhile isJsSpace ++ jsTrimList l ++
        ((l.dropWhile isJsSpace).reverse.takeWhile isJsSpace).reverse := by
        rw [List.append_assoc]

theorem strIncludes_of_jsTrim {s sub : String} (h : strIncludes (jsTrim s) sub = true) :
    strIncludes s sub = true := by
  have h' : inclList sub.toList (jsTrimList s.toList) = true := h
  obtain ⟨pre, post, hd⟩ := jsTrimList_decomp s.toList
  have h2 := inclList_append_left pre (inclList_append_right post h')
  show inclList sub.toList s.toList = true
  rw [show s.toList = pre ++ jsTrimList s.toList ++ post from hd, List.append_assoc]
  exact h2

theorem strIncludes_normalize_false {q sub : String}
    (h : strIncludes (jsToLower q) sub = false) :
    strIncludes (normalizeQuery q) sub = false := by
  cases hb : strIncludes (normalizeQuery q) sub
  · rfl
  · have hb' : strIncludes (jsTrim (jsToLower q)) sub = true := hb
    rw [strIncludes_of_jsTrim hb'] at h
    exact h

theorem padTrunc_length (W : Nat) (row : List String) : (padTrunc W row).length = W := by
  simp only [padTrunc, List.length_take, List.length_append, List.length_replicate]
  omega

theorem parseRowsGo_row_length (W : Nat) :
    ∀ (fuel : Nat) (lines : List String), ∀ row ∈ parseRowsGo W fuel lines,
      row.length = W := by
  intro fuel
  induction fuel with
  | zero =>
    intro lines row hr
    simp [parseRowsGo] at hr
  | succ n ih =>
    intro lines row hr
    match lines with
    | [] => simp [parseRowsGo] at hr
    | l :: rest =>
      rw [parseRowsGo] at hr
      by_cases ht : jsTrim l = ""
      · rw [if_pos ht] at hr
        exact ih rest row hr
      · rw [if_neg ht] at hr
        split at hr
        · rcases List.mem_cons.mp hr with h | h
          · rw [h]; exact padTrunc_length _ _
          · exact ih _ row h
        · exact ih _ row hr

theorem loadCSVData_row_length (data : List (List String)) (t : CSVData)
    (h : loadCSVData data = Except.ok t) :
    ∀ row ∈ t.rows, row.length = t.headers.length := by
  intro row hr
  unfold loadCSVData at h
  split at h
  · exact absurd h (by simp)
  · rw [Except.ok.injEq] at h
    subst h
    simp only [List.mem_map] at hr
    obtain ⟨r, _, hrow⟩ := hr
    rw [← hrow]
    simp [padTrunc_length]

theorem projRow_range {row : List String} {n : Nat} (h : row.length = n) :
    projRow (List.range n) row = row := by
  apply List.ext_getElem
  · simp [projRow, h]
  · intro i h1 h2
    simp only [projRow, List.getElem_map, List.getElem_range]
    rw [List.getD_eq_getElem?_getD, List.getElem?_eq_getElem h2]
    rfl

theorem mem_of_mem_whereStage {nq : String} {headers : List String}
    {rows : List (List String)} {row : List String}
    (h : row ∈ (whereStage nq headers rows).1) : row ∈ rows := by
  unfold whereStage at h
  cases hE : whereExtract nq <;> simp only [hE] at h
  · exact h
  · exact (List.mem_filter.mp h).1

theorem mem_of_mem_orderStage {nq : String} {headers : List String}
    {rows : List (List String)} {row : List String}
    (h : row ∈ (orderStage nq headers rows).1) : row ∈ rows := by
  unfold orderStage at h
  cases hE : orderExtract nq with
  | none => simp only [hE] at h; exact h
  | some p =>
    obtain ⟨col, dir⟩ := p
    simp only [hE] at h
    cases hF : headers.findIdx? (fun h => jsToLower h == jsToLower col) <;>
      simp only [hF] at h
    · exact h
    · exact (List.mem_insertionSort _).mp h

theorem mem_of_mem_limitStage {nq : String} {rows : List (List String)}
    {row : List String} (h : row ∈ limitStage nq rows) : row ∈ rows := by
  unfold limitStage at h
  cases hE : limitExtract nq <;> simp only [hE] at h
  · exact h
  · exact List.mem_of_mem_take h

theorem numDiff_neg (a b : Int × Int) : numDiff a b = -(numDiff b a) := by
  rcases a with ⟨m1, e1⟩
  rcases b with ⟨m2, e2⟩
  unfold numDiff
  simp only
  by_cases h : (0 : Int) ≤ e1 - e2
  · by_cases h2 : (0 : Int) ≤ e2 - e1
    · have he : e1 = e2 := by omega
      subst he
      simp
    · rw [if_pos h, if_neg h2]
      have hd : -(e2 - e1) = e1 - e2 := by ring
      rw [hd]
      ring
  · have h2 : (0 : Int) ≤ e2 - e1 := by omega
    rw [if_neg h, if_pos h2]
    have hd : -(e1 - e2) = e2 - e1 := by ring
    rw [hd]
    ring

theorem cmpCharList_neg (a b : List Char) : cmpCharList a b = -(cmpCharList b a) := by
  induction a generalizing b with
  | nil => cases b <;> simp [cmpCharList]
  | cons x xs ih =>
    cases b with
    | nil => simp [cmpCharList]
    | cons y ys =>
      simp only [cmpCharList]
      rcases lt_trichotomy x y with h | h | h
      · simp [h, asymm h]
      · subst h
        simp [lt_irrefl]
        exact ih ys
      · simp [h, asymm h]

theorem rowLe_total (j : Nat) (d : Bool) (a b : List String) :
    rowLe j d a b ∨ rowLe j d b a := by
  have hcs : strCmp (b.getD j "") (a.getD j "") =
      -(strCmp (a.getD j "") (b.getD j "")) := cmpCharList_neg _ _
  unfold rowLe rowCmp
  cases hpa : parseFloat? (a.getD j "") <;> cases hpb : parseFloat? (b.getD j "") <;>
    simp only [hpa, hpb]
  · cases d
    · rw [if_neg Bool.false_ne_true, if_neg Bool.false_ne_true]
      omega
    · rw [if_pos rfl, if_pos rfl]
      omega
  · cases d
    · rw [if_neg Bool.false_ne_true, if_neg Bool.false_ne_true]
      omega
    · rw [if_pos rfl, if_pos rfl]
      omega
  · cases d
    · rw [if_neg Bool.false_ne_true, if_neg Bool.false_ne_true]
      omega
    · rw [if_pos rfl, if_pos rfl]
      omega
  · rename_i x y
    have hn := numDiff_neg x y
    cases d
    · rw [if_neg Bool.false_ne_true, if_neg Bool.false_ne_true]
      omega
    · rw [if_pos rfl, if_pos rfl]
      omega

theorem chain'_orderedInsert {α : Type} (r : α → α → Prop) [DecidableRel r]
    (tot : ∀ a b, r a b ∨ r b a) (x : α) (l : List α) (h : l.Chain' r) :
    (List.orderedInsert r x l).Chain' r := by
  induction l with
  | nil => simp [List.orderedInsert]
  | cons y ys ih =>
    rw [List.orderedInsert]
    by_cases hxy : r x y
    · rw [if_pos hxy]
      exact List.chain'_cons.mpr ⟨hxy, h⟩
    · rw [if_neg hxy]
      rw [List.chain'_cons']
      refine ⟨?_, ih h.tail⟩
      intro z hz
      cases ys with
      | nil =>
        have hz' : x = z := by simpa [List.orderedInsert] using hz
        rw [← hz']
        exact (tot x y).resolve_left hxy
      | cons z' zs =>
        by_cases hxz : r x z'
        · have hz' : x = z := by simpa [List.orderedInsert, hxz] using hz
          rw [← hz']
          exact (tot x y).resolve_left hxy
        · have hz' : z' = z := by simpa [List.orderedInsert, hxz] using hz
          rw [← hz']
          exact (List.chain'_cons.mp h).1

theorem chain'_insertionSort {α : Type} (r : α → α → Prop) [DecidableRel r]
    (tot : ∀ a b, r a b ∨ r b a) (l : List α) :
    (List.insertionSort r l).Chain' r := by
  induction l with
  | nil => simp [List.insertionSort]
  | cons a l ih =>
    rw [List.insertionSort]
    exact chain'_orderedInsert r tot a _ ih

/-! ## Claims -/

/-- C1: the claim states `execute` never modifies the Table, including for
queries with an ORDER BY clause and no WHERE clause.  The code violates
this: without a WHERE clause `filteredRows` aliases `data.rows`, and
`Array.prototype.sort` sorts that array in place, so the Table's rows are
reordered.  At the failing input below the table `{headers: ["v"], rows:
[["2"],["1"]]}` ends up with rows `[["1"],["2"]]` after the call. -/
theorem execute_order_by_no_where_mutates_table :
    (executeCSVQuery "select * from t order by v"
        { headers := ["v"], rows := [["2"], ["1"]] }).2.rows = [["1"], ["2"]] ∧
    [["1"], ["2"]] ≠ ([["2"], ["1"]] : List (List String)) := by
  constructor
  · decide
  · decide

/-- C2 counterexample: on empty raw text the server loader `parseCSV` does
not fail; it returns a Table (headers `[""]`, no rows), because
`''.split('\n')` is `['']` and the zero-lines guard never fires. -/
theorem parseCSV_empty_returns_table :
    parseCSV "" = { headers := [""], rows := [] } := by
  decide

/-- C2 amended: the client loader (`loadCSVData`) rejects with the error
"No data found in CSV" when the parsed data has no rows (which is what
empty raw text produces under Papa Parse), while the server loader
(`parseCSV`) never fails and on empty text returns the degenerate Table
with headers `[""]` and no rows. -/
theorem loader_empty_input_behavior :
    loadCSVData [] = Except.error "No data found in CSV" ∧
    (parseCSV "").headers = [""] ∧ (parseCSV "").rows = [] :=
  ⟨rfl, by decide, by decide⟩

/-- C4: a query whose lower-cased text does not contain `select` yields
the fixed unsupported-query ResultSet (columns `["message"]`, exactly one
row holding the fixed message, rowCount 1) and leaves the table
unchanged; no exception path exists (the engine is a total function). -/
theorem unsupported_query_fallback (q : String) (t : CSVData)
    (h : strIncludes (jsToLower q) "select" = false) :
    executeCSVQuery q t =
      ({ columns := ["message"],
         rows := [["Query type not supported. Please use SELECT statements."]],
         rowCount := 1 }, t) := by
  have hn : strIncludes (normalizeQuery q) "select" = false :=
    strIncludes_normalize_false h
  unfold executeCSVQuery
  simp [hn]

/-- Witness for C4 at a concrete non-SELECT query. -/
theorem unsupported_query_fallback_witness :
    strIncludes (jsToLower "DROP TABLE x") "select" = false ∧
    executeCSVQuery "DROP TABLE x" { headers := ["a"], rows := [["1"]] } =
      ({ columns := ["message"],
         rows := [["Query type not supported. Please use SELECT statements."]],
         rowCount := 1 }, { headers := ["a"], rows := [["1"]] }) :=
  ⟨by decide, unsupported_query_fallback "DROP TABLE x" _ (by decide)⟩

/-- C7: every row of a loaded Table has exactly as many cells as there are
headers — for the server loader `parseCSV` on arbitrary raw text, and for
the client loader `loadCSVData` on arbitrary parsed data (rows are padded
with empty strings and truncated to the header width). -/
theorem loader_row_width_invariant :
    (∀ (csvText : String), ∀ row ∈ (parseCSV csvText).rows,
      row.length = (parseCSV csvText).headers.length) ∧
    (∀ (data : List (List String)) (t : CSVData), loadCSVData data = Except.ok t →
      ∀ row ∈ t.rows, row.length = t.headers.length) := by
  constructor
  · intro csvText row h
    unfold parseCSV at h ⊢
    by_cases hc : (splitOnChar '\n' csvText).length = 0
    · rw [if_pos hc] at h
      simp at h
    · rw [if_neg hc] at h ⊢
      exact parseRowsGo_row_length _ _ _ row h
  · exact loadCSVData_row_length

/-- Witness for C7: a short row is padded to the header width. -/
theorem loader_row_width_invariant_witness :
    ["1", ""] ∈ (parseCSV "a,b\n1").rows ∧
    (["1", ""] : List String).length = (parseCSV "a,b\n1").headers.length :=
  ⟨by decide, loader_row_width_invariant.1 "a,b\n1" ["1", ""] (by decide)⟩

/-- C9: `SELECT * FROM t` returns the table's headers and rows unchanged
(with `rowCount` the number of rows) and does not modify the table; the
hypothesis is the Table width invariant established by the loaders. -/
theorem select_star_identity (t : CSVData)
    (hw : ∀ row ∈ t.rows, row.length = t.headers.length) :
    executeCSVQuery "SELECT * FROM t" t =
      ({ columns := t.headers, rows := t.rows, rowCount := t.rows.length }, t) := by
  have hnq : normalizeQuery "SELECT * FROM t" = "select * from t" := rfl
  have h1 : strIncludes "select * from t" "select" = true := rfl
  have h2 : selectStage "select * from t" t.headers =
      (List.range t.headers.length, t.headers) := by
    unfold selectStage
    rw [show selectExtract "select * from t" = some "*" from rfl]
    simp [show jsTrim "*" = "*" from rfl]
  have h3 : whereStage "select * from t" t.headers t.rows = (t.rows, true) := by
    unfold whereStage
    rw [show whereExtract "select * from t" = none from rfl]
  have h4 : orderStage "select * from t" t.headers t.rows = (t.rows, false) := by
    unfold orderStage
    rw [show orderExtract "select * from t" = none from rfl]
  have h5 : limitStage "select * from t" t.rows = t.rows := by
    unfold limitStage
    rw [show limitExtract "select * from t" = none from rfl]
  have hproj : t.rows.map (projRow (List.range t.headers.length)) = t.rows := by
    rw [List.map_congr_left (fun row hr => projRow_range (hw row hr))]
    exact List.map_id t.rows
  unfold executeCSVQuery
  rw [hnq]
  simp only [h1, h2, h3, h4, h5, hproj, if_true]
  simp

/-- Witness for C9 at a concrete one-row table. -/
theorem select_star_identity_witness :
    (∀ row ∈ ([["x", "y"]] : List (List String)),
      row.length = (["a", "b"] : List String).length) ∧
    executeCSVQuery "SELECT * FROM t" { headers := ["a", "b"], rows := [["x", "y"]] } =
      ({ columns := ["a", "b"], rows := [["x", "y"]], rowCount := 1 },
       { headers := ["a", "b"], rows := [["x", "y"]] }) :=
  ⟨by decide, select_star_identity { headers := ["a", "b"], rows := [["x", "y"]] }
    (by decide)⟩

/-- C3 counterexample: the claim says the value token is the entire clause
text after the first `=`, but `split('=')` takes only the segment between
the first and the second `=`.  For the query
`select * from c where c=a=b` against the table `{headers: ["c"], rows:
[["a"]]}`, the claim's value token is `a=b`, the cell `"a"` does not
contain `"a=b"`, so the claim predicts the row is dropped — yet the
engine keeps it (the code's value token is just `a`). -/
theorem where_eq_counterexample :
    (executeCSVQuery "select * from c where c=a=b"
        { headers := ["c"], rows := [["a"]] }).1.rows = [["a"]] ∧
    strIncludes (jsToLower "a") (jsToLower (stripQuotes (jsTrim "a=b"))) = false := by
  constructor
  · decide
  · decide

/-- C3 amended: for a WHERE clause containing `=`, the engine splits the
clause on every `=`; the column token is the trimmed text before the
first `=` and the value token is the trimmed text between the first and
second `=` (the remainder is discarded).  When the column resolves
(case-insensitively) to header index `j`, exactly the rows whose cell `j`
contains the quote-stripped value as a case-insensitive substring are
kept. -/
theorem where_eq_filter_amended (nq : String) (headers : List String)
    (rows : List (List String)) (clause : String) (j : Nat)
    (hcl : whereExtract nq = some clause)
    (heq : strIncludes clause "=" = true)
    (hj : headers.findIdx?
        (fun h => jsToLower h == jsToLower (jsTrim ((splitOnChar '=' clause).getD 0 ""))) =
      some j) :
    (whereStage nq headers rows).1 = rows.filter (fun row =>
      strIncludes (jsToLower (row.getD j ""))
        (jsToLower (stripQuotes (jsTrim ((splitOnChar '=' clause).getD 1 ""))))) := by
  unfold whereStage
  simp only [hcl]
  apply List.filter_congr
  intro row _
  unfold rowPassesWhere
  simp only [heq, if_true, hj]

/-- Witness for C3 (amended) at a concrete query: `where c='a'` keeps
exactly the rows whose cell contains `a`. -/
theorem where_eq_filter_amended_witness :
    whereExtract "select * from t where c='a'" = some "c='a'" ∧
    (whereStage "select * from t where c='a'" ["c"] [["ab"], ["b"]]).1 = [["ab"]] := by
  refine ⟨by decide, ?_⟩
  rw [where_eq_filter_amended "select * from t where c='a'" ["c"] [["ab"], ["b"]]
    "c='a'" 0 (by decide) (by decide) (by decide)]
  decide

/-- C5: a SELECT column token with no case-insensitive exact header match
resolves to index 0, so the corresponding position of every projected
result row holds the first column's cell value (`row[0] || ''`). -/
theorem unresolved_select_column_falls_back (nq : String) (headers : List String)
    (cap tok : String) (i : Nat)
    (h1 : selectExtract nq = some cap)
    (h2 : jsTrim cap ≠ "*")
    (h3 : ((splitOnChar ',' cap).map jsTrim)[i]? = some tok)
    (h4 : headers.findIdx? (fun h => jsToLower h == jsToLower tok) = none) :
    (selectStage nq headers).1[i]? = some 0 ∧
    ∀ row : List String, (projRow (selectStage nq headers).1 row)[i]? =
      some (row.getD 0 "") := by
  have hsel : (selectStage nq headers).1 =
      ((splitOnChar ',' cap).map jsTrim).map (resolveColIdx headers) := by
    unfold selectStage
    simp only [h1, if_pos h2]
  have hi : (selectStage nq headers).1[i]? = some 0 := by
    rw [hsel, List.getElem?_map, h3]
    simp [resolveColIdx, h4]
  refine ⟨hi, fun row => ?_⟩
  unfold projRow
  rw [List.getElem?_map, hi]
  rfl

/-- Witness for C5: `select foo from t` against headers `["a","b"]`
resolves `foo` to index 0 and projects the first column. -/
theorem unresolved_select_column_falls_back_witness :
    (selectStage "select foo from t" ["a", "b"]).1[0]? = some 0 ∧
    (projRow (selectStage "select foo from t" ["a", "b"]).1 ["x", "y"])[0]? =
      some "x" := by
  have H := unresolved_select_column_falls_back "select foo from t" ["a", "b"]
    "foo" "foo" 0 (by decide) (by decide) (by decide) (by decide)
  exact ⟨H.1, H.2 ["x", "y"]⟩

/-- C10: a query containing `select` on which the pattern
`select <columns> from` does not match keeps the default full projection:
the result columns are the table's headers in table order, and the
projection step is the identity on every surviving row, so the result
rows are exactly the filtered/sorted/limited rows with every cell kept. -/
theorem select_without_from_full_projection (q : String) (t : CSVData)
    (hsel : strIncludes (normalizeQuery q) "select" = true)
    (hnone : selectExtract (normalizeQuery q) = none)
    (hw : ∀ row ∈ t.rows, row.length = t.headers.length) :
    (executeCSVQuery q t).1.columns = t.headers ∧
    (executeCSVQuery q t).1.rows =
      limitStage (normalizeQuery q)
        (orderStage (normalizeQuery q) t.headers
          (whereStage (normalizeQuery q) t.headers t.rows).1).1 := by
  have hselstage : selectStage (normalizeQuery q) t.headers =
      (List.range t.headers.length, t.headers) := by
    unfold selectStage
    simp only [hnone]
  have hmem : ∀ row ∈ limitStage (normalizeQuery q)
      (orderStage (normalizeQuery q) t.headers
        (whereStage (normalizeQuery q) t.headers t.rows).1).1, row ∈ t.rows :=
    fun row hr =>
      mem_of_mem_whereStage (mem_of_mem_orderStage (mem_of_mem_limitStage hr))
  have hproj : (limitStage (normalizeQuery q)
      (orderStage (normalizeQuery q) t.headers
        (whereStage (normalizeQuery q) t.headers t.rows).1).1).map
      (projRow (List.range t.headers.length)) =
      limitStage (normalizeQuery q)
        (orderStage (normalizeQuery q) t.headers
          (whereStage (normalizeQuery q) t.headers t.rows).1).1 := by
    rw [List.map_congr_left (fun row hr => projRow_range (hw row (hmem row hr)))]
    exact List.map_id _
  constructor
  · unfold executeCSVQuery
    simp only [hsel, hselstage, if_true]
  · unfold executeCSVQuery
    simp only [hsel, hselstage, if_true, hproj]

/-- Witness for C10: the query `select` (no FROM) returns all headers and
all rows. -/
theorem select_without_from_full_projection_witness :
    (executeCSVQuery "select" { headers := ["a"], rows := [["x"]] }).1.columns =
      ["a"] ∧
    (executeCSVQuery "select" { headers := ["a"], rows := [["x"]] }).1.rows =
      limitStage (normalizeQuery "select")
        (orderStage (normalizeQuery "select") ["a"]
          (whereStage (normalizeQuery "select") ["a"] [["x"]]).1).1 :=
  select_without_from_full_projection "select" { headers := ["a"], rows := [["x"]] }
    (by decide) (by decide) (by decide)

/-- C8: for a WHERE clause containing `like` and no `=` that matches the
shape `<column> like '<pattern>'` with the column resolving
(case-insensitively) to header index `j`, exactly the rows whose cell `j`
contains the `%`-stripped pattern as a case-insensitive substring are
kept (client engine; the server copy has no like branch). -/
theorem where_like_filter (nq : String) (headers : List String)
    (rows : List (List String)) (clause col pat : String) (j : Nat)
    (hcl : whereExtract nq = some clause)
    (hne : strIncludes clause "=" = false)
    (hlk : strIncludes clause "like" = true)
    (hm : likeExtract clause = some (col, pat))
    (hj : headers.findIdx? (fun h => jsToLower h == jsToLower col) = some j) :
    (whereStage nq headers rows).1 = rows.filter (fun row =>
      strIncludes (jsToLower (row.getD j "")) (jsToLower (stripPercent pat))) := by
  unfold whereStage
  simp only [hcl]
  apply List.filter_congr
  intro row _
  unfold rowPassesWhere
  simp [hne, hlk, hm, hj]

/-- Witness for C8: `where name like 'ag%'` keeps exactly the rows whose
cell contains `ag` case-insensitively. -/
theorem where_like_filter_witness :
    whereExtract "select * from t where name like 'ag%'" =
      some "name like 'ag%'" ∧
    (whereStage "select * from t where name like 'ag%'" ["name"]
      [["Agri"], ["Mining"]]).1 = [["Agri"]] := by
  refine ⟨by decide, ?_⟩
  rw [where_like_filter "select * from t where name like 'ag%'" ["name"]
    [["Agri"], ["Mining"]] "name like 'ag%'" "name" "ag%" 0
    (by decide) (by decide) (by decide) (by decide) (by decide)]
  decide

/-- C6: when `order by <col> [asc|desc]` matches and the column resolves
to header index `j`, the engine's sorted row list is the stable
insertion-sorted (model of the stable `Array.prototype.sort`) filtered
rows under the comparator `rowCmp j desc`: numeric when both cells parse
as numbers, lexicographic string comparison otherwise, negated exactly
when `desc` was captured.  The sorted list is a permutation of the
filtered rows, every adjacent pair satisfies the comparator (`≤ 0`), and
the ResultSet rows are the projection of the limited sorted rows. -/
theorem order_by_sorts_rows (q : String) (t : CSVData) (col : String)
    (dir : Option String) (j : Nat)
    (h1 : orderExtract (normalizeQuery q) = some (col, dir))
    (h2 : t.headers.findIdx? (fun h => jsToLower h == jsToLower col) = some j)
    (h3 : strIncludes (normalizeQuery q) "select" = true) :
    (orderStage (normalizeQuery q) t.headers
        (whereStage (normalizeQuery q) t.headers t.rows).1).1 =
      List.insertionSort (rowLe j (dir == some "desc"))
        (whereStage (normalizeQuery q) t.headers t.rows).1 ∧
    List.Chain' (rowLe j (dir == some "desc"))
      (orderStage (normalizeQuery q) t.headers
        (whereStage (normalizeQuery q) t.headers t.rows).1).1 ∧
    ((orderStage (normalizeQuery q) t.headers
        (whereStage (normalizeQuery q) t.headers t.rows).1).1).Perm
      (whereStage (normalizeQuery q) t.headers t.rows).1 ∧
    (executeCSVQuery q t).1.rows =
      (limitStage (normalizeQuery q)
        (orderStage (normalizeQuery q) t.headers
          (whereStage (normalizeQuery q) t.headers t.rows).1).1).map
        (projRow (selectStage (normalizeQuery q) t.headers).1) := by
  have hs : (orderStage (normalizeQuery q) t.headers
      (whereStage (normalizeQuery q) t.headers t.rows).1).1 =
      List.insertionSort (rowLe j (dir == some "desc"))
        (whereStage (normalizeQuery q) t.headers t.rows).1 := by
    unfold orderStage
    simp only [h1, h2]
  refine ⟨hs, ?_, ?_, ?_⟩
  · rw [hs]
    exact chain'_insertionSort _ (rowLe_total j _) _
  · rw [hs]
    exact List.perm_insertionSort _ _
  · unfold executeCSVQuery
    simp only [h3, if_true]

/-- Witness for C6: `order by v` sorts `[["2"],["1"]]` into
`[["1"],["2"]]` and the properties hold at that input. -/
theorem order_by_sorts_rows_witness :
    (orderStage (normalizeQuery "select * from t order by v") ["v"]
        (whereStage (normalizeQuery "select * from t order by v") ["v"]
          [["2"], ["1"]]).1).1 =
      List.insertionSort (rowLe 0 (none == some "desc"))
        (whereStage (normalizeQuery "select * from t order by v") ["v"]
          [["2"], ["1"]]).1 ∧
    List.Chain' (rowLe 0 (none == some "desc"))
      (orderStage (normalizeQuery "select * from t order by v") ["v"]
        (whereStage (normalizeQuery "select * from t order by v") ["v"]
          [["2"], ["1"]]).1).1 ∧
    ((orderStage (normalizeQuery "select * from t order by v") ["v"]
        (whereStage (normalizeQuery "select * from t order by v") ["v"]
          [["2"], ["1"]]).1).1).Perm
      (whereStage (normalizeQuery "select * from t order by v") ["v"]
        [["2"], ["1"]]).1 ∧
    (executeCSVQuery "select * from t order by v"
        { headers := ["v"], rows := [["2"], ["1"]] }).1.rows =
      (limitStage (normalizeQuery "select * from t order by v")
        (orderStage (normalizeQuery "select * from t order by v") ["v"]
          (whereStage (normalizeQuery "select * from t order by v") ["v"]
            [["2"], ["1"]]).1).1).map
        (projRow (selectStage (normalizeQuery "select * from t order by v")
          ["v"]).1) :=
  order_by_sorts_rows "select * from t order by v"
    { headers := ["v"], rows := [["2"], ["1"]] } "v" none 0
    (by decide) (by decide) (by decide)

end CSVQuery
